import Mathlib

/-!
Verification of the storage-proof orchestration core (rust-fil-proofs sample).

This file shallowly embeds the code under scrutiny and proves the spec claims
about it:

* `storage-proofs-post/src/halo2/window.rs` — challenge derivation
  (`generate_challenges`), partition sizing (`sectors_challenged_per_partition`,
  `partition_count`) and the construction of per-partition public inputs
  (`PublicInputs::from`, embedded as `publicInputsFrom`).
* `storage-proofs-porep/src/encode.rs` — the field-level `encode`/`decode`
  primitives of the replica encoding.
* Operations of the `filecoin-proofs` API crate that the sample contains only
  tests and callers for (seal-proof aggregation, PreCommit-1 resumability,
  window-PoSt fault reporting, the two window-PoSt proving paths, and the
  native aggregate-proof serialization) are modelled from the specification;
  each such definition carries a doc comment starting with
  `Modelled from the spec:`.

Machine integers are embedded as `Nat` with explicit wrap-around where the
code's behaviour depends on it; bytes are `Nat` values below 256; the `f32`
arithmetic inside `partition_count` is embedded exactly (round-to-nearest,
ties-to-even conversion of an integer to a 32-bit float, exact division — the
only divisor that occurs is 1 — exact `ceil`, and the saturating `as usize`
cast).
-/

set_option maxRecDepth 40000

/-! ## Byte-level helpers

`u64::to_le_bytes` / `usize::to_le_bytes` produce the 8 little-endian base-256
digits, `u64::from_le_bytes` reads them back; SHA-256 internally uses big-endian
32-bit words. -/

/-- The `w` little-endian base-256 digits of `n`; for `w = 8` this is exactly
`(n as u64).to_le_bytes()` (digits beyond `2 ^ 64` never exist for `w = 8`
inputs that came from a `u64`/`usize`, and taking only `w` digits is the
wrap-around of the machine integer). -/
def toLeBytes : Nat → Nat → List Nat
  | 0, _ => []
  | w + 1, n => n % 256 :: toLeBytes w (n / 256)

/-- Read a little-endian byte list back as an unsigned integer
(`u64::from_le_bytes` on 8 bytes). -/
def fromLeBytes : List Nat → Nat
  | [] => 0
  | b :: bs => b + 256 * fromLeBytes bs

/-- The `w` big-endian base-256 digits of `n` (used by SHA-256's length
padding). -/
def toBeBytes (w n : Nat) : List Nat := (List.range w).map (fun i => n / 256 ^ (w - 1 - i) % 256)

/-- Read a big-endian byte list as an unsigned integer (SHA-256 word load). -/
def fromBeBytes (bs : List Nat) : Nat := bs.foldl (fun acc b => acc * 256 + b) 0

/-- Fuel-driven worker for `chunksOf`; the fuel starts at the list length,
which bounds the number of nonempty chunks. -/
def chunksOfAux {A : Type} : Nat → Nat → List A → List (List A)
  | 0, _, _ => []
  | _ + 1, _, [] => []
  | fuel + 1, size, a :: as => (a :: as).take size :: chunksOfAux fuel size ((a :: as).drop size)

/-- `slice::chunks(size)`: split a list into consecutive chunks of `size`
elements, the last chunk possibly shorter.  (Rust panics on `size = 0`; every
call site below passes a positive size.) -/
def chunksOf {A : Type} (size : Nat) (l : List A) : List (List A) := chunksOfAux l.length size l

/-- Fuel-driven worker for `log2floor` (the fuel starts at `n`, which bounds
the number of halvings). -/
def log2floorAux : Nat → Nat → Nat
  | 0, _ => 0
  | fuel + 1, n => if n < 2 then 0 else log2floorAux fuel (n / 2) + 1

/-- Floor of the base-2 logarithm (`log2floor 0 = 0`); structural-recursion
variant so that concrete instances reduce inside the kernel. -/
def log2floor (n : Nat) : Nat := log2floorAux n n

/-! ## SHA-256

The `sha2` crate's `Sha256` as used by `generate_challenges`: the streaming
`update` calls accumulate bytes and `finalize` hashes the concatenation, so the
pure embedding hashes the concatenated message in one shot; cloning a seeded
hasher state corresponds to reusing the already-accumulated byte list.  The
compression function below is FIPS 180-4 verbatim over `Nat` words reduced
modulo `2 ^ 32`. -/

/-- Reduce to a 32-bit word. -/
def w32 (n : Nat) : Nat := n % 4294967296

/-- Right-rotation of a 32-bit word. -/
def rotr32 (n x : Nat) : Nat := w32 ((x >>> n) ||| (x <<< (32 - n)))

/-- SHA-256 `Ch(x,y,z)`; complement within 32 bits is `xor` with the all-ones
word. -/
def shaCh (x y z : Nat) : Nat := (x &&& y) ^^^ ((x ^^^ 4294967295) &&& z)

/-- SHA-256 `Maj(x,y,z)`. -/
def shaMaj (x y z : Nat) : Nat := (x &&& y) ^^^ (x &&& z) ^^^ (y &&& z)

/-- SHA-256 `Σ0`. -/
def bsig0 (x : Nat) : Nat := rotr32 2 x ^^^ rotr32 13 x ^^^ rotr32 22 x

/-- SHA-256 `Σ1`. -/
def bsig1 (x : Nat) : Nat := rotr32 6 x ^^^ rotr32 11 x ^^^ rotr32 25 x

/-- SHA-256 `σ0`. -/
def ssig0 (x : Nat) : Nat := rotr32 7 x ^^^ rotr32 18 x ^^^ (x >>> 3)

/-- SHA-256 `σ1`. -/
def ssig1 (x : Nat) : Nat := rotr32 17 x ^^^ rotr32 19 x ^^^ (x >>> 10)

/-- The 64 SHA-256 round constants. -/
def shaK : List Nat :=
  [1116352408, 1899447441, 3049323471, 3921009573, 961987163,
   1508970993, 2453635748, 2870763221, 3624381080, 310598401,
   607225278, 1426881987, 1925078388, 2162078206, 2614888103,
   3248222580, 3835390401, 4022224774, 264347078, 604807628,
   770255983, 1249150122, 1555081692, 1996064986, 2554220882,
   2821834349, 2952996808, 3210313671, 3336571891, 3584528711,
   113926993, 338241895, 666307205, 773529912, 1294757372,
   1396182291, 1695183700, 1986661051, 2177026350, 2456956037,
   2730485921, 2820302411, 3259730800, 3345764771, 3516065817,
   3600352804, 4094571909, 275423344, 430227734, 506948616,
   659060556, 883997877, 958139571, 1322822218, 1537002063,
   1747873779, 1955562222, 2024104815, 2227730452, 2361852424,
   2428436474, 2756734187, 3204031479, 3329325298]

/-- The SHA-256 initial hash state. -/
def shaH0 : List Nat :=
  [1779033703, 3144134277, 1013904242, 2773480762,
   1359893119, 2600822924, 528734635, 1541459225]

/-- Extend a 16-word message block to the 64-word message schedule. -/
def extendSchedule : Nat → List Nat → List Nat
  | 0, ws => ws
  | fuel + 1, ws =>
    let t := ws.length
    let next := w32 (ssig1 (ws.getD (t - 2) 0) + ws.getD (t - 7) 0 +
                     ssig0 (ws.getD (t - 15) 0) + ws.getD (t - 16) 0)
    extendSchedule fuel (ws ++ [next])

/-- One SHA-256 compression round on the working variables `(a, …, h)`. -/
def roundStep (s : Nat × Nat × Nat × Nat × Nat × Nat × Nat × Nat) (kw : Nat × Nat) :
    Nat × Nat × Nat × Nat × Nat × Nat × Nat × Nat :=
  match s with
  | (a, b, c, d, e, f, g, h) =>
    let t1 := w32 (h + bsig1 e + shaCh e f g + kw.1 + kw.2)
    let t2 := w32 (bsig0 a + shaMaj a b c)
    (w32 (t1 + t2), a, b, c, w32 (d + t1), e, f, g)

/-- The SHA-256 compression function: fold the 64 rounds over one block and add
the result into the chaining state. -/
def compress (hs : List Nat) (blockWords : List Nat) : List Nat :=
  let ws := extendSchedule 48 blockWords
  let init := (hs.getD 0 0, hs.getD 1 0, hs.getD 2 0, hs.getD 3 0,
               hs.getD 4 0, hs.getD 5 0, hs.getD 6 0, hs.getD 7 0)
  match (shaK.zip ws).foldl roundStep init with
  | (a, b, c, d, e, f, g, h) =>
    [w32 (hs.getD 0 0 + a), w32 (hs.getD 1 0 + b), w32 (hs.getD 2 0 + c), w32 (hs.getD 3 0 + d),
     w32 (hs.getD 4 0 + e), w32 (hs.getD 5 0 + f), w32 (hs.getD 6 0 + g), w32 (hs.getD 7 0 + h)]

/-- SHA-256 of a byte list: append the 0x80 marker, zero padding and the 64-bit
big-endian bit length, then compress the 64-byte blocks in order.  Checked
against the FIPS 180-4 test vectors for the empty, 3-byte and 56-byte
messages. -/
def sha256 (msg : List Nat) : List Nat :=
  let l := msg.length
  let padded := msg ++ [128] ++ List.replicate ((64 - (l + 9) % 64) % 64) 0 ++ toBeBytes 8 (8 * l)
  let blocks := chunksOf 64 padded
  let finalHs := blocks.foldl (fun hs block => compress hs ((chunksOf 4 block).map fromBeBytes)) shaH0
  (finalHs.map (toBeBytes 4)).flatten

/-! ## `storage-proofs-post/src/halo2/window.rs` -/

/-- `SECTOR_CHALLENGES`: the number of Merkle challenges per challenged
sector. -/
def SECTOR_CHALLENGES : Nat := 10

/-- `GROTH16_PARTITIONING`: whether to use the same number of partitions as
Groth16 — a compile-time constant, `false` in this code. -/
def GROTH16_PARTITIONING : Bool := false

/-- `SECTOR_NODES_2_KIB` from `storage_proofs_core` (sector bytes divided by
the 32-byte node size). -/
def SECTOR_NODES_2_KIB : Nat := 64

/-- `SECTOR_NODES_4_KIB`. -/
def SECTOR_NODES_4_KIB : Nat := 128

/-- `SECTOR_NODES_16_KIB`. -/
def SECTOR_NODES_16_KIB : Nat := 512

/-- `SECTOR_NODES_32_KIB`. -/
def SECTOR_NODES_32_KIB : Nat := 1024

/-- `SECTOR_NODES_512_MIB`. -/
def SECTOR_NODES_512_MIB : Nat := 16777216

/-- `SECTOR_NODES_32_GIB`. -/
def SECTOR_NODES_32_GIB : Nat := 1073741824

/-- `SECTOR_NODES_64_GIB`. -/
def SECTOR_NODES_64_GIB : Nat := 2147483648

/-- `sectors_challenged_per_partition`: the number of challenged sectors per
partition.  With `GROTH16_PARTITIONING = false` the `match` on the sector size
is dead and the result is 1 for every sector size. -/
def sectors_challenged_per_partition (sector_nodes : Nat) : Nat :=
  if GROTH16_PARTITIONING then
    if sector_nodes = SECTOR_NODES_32_GIB then 2349
    else if sector_nodes = SECTOR_NODES_64_GIB then 2300
    else 2
  else 1

/-! ### Exact model of the `f32` arithmetic in `partition_count`

`partition_count` computes `(num_sectors as f32 / partition_sectors as f32)
.ceil() as usize`.  The model below is exact IEEE-754 `binary32` semantics for
every value that can reach it:

* `f32ofNat` is the `u64 as f32` conversion — round to nearest representable,
  ties to even.  Every representable `f32` at or above `2 ^ 24` is an integer,
  so the result is returned as the `Nat` it denotes.  A `usize` is below
  `2 ^ 64`, far below the `f32` overflow threshold `2 ^ 128`.
* division is embedded as exact rational division.  IEEE division rounds the
  exact quotient, and rounding is the identity whenever the quotient is
  representable; the divisor here is `sectors_challenged_per_partition`, which
  is 1 for every sector size, so the quotient is the (representable) dividend
  and the embedding coincides with IEEE semantics at every reachable input.
* `.ceil()` on an `f32` is exact (the ceiling of a representable value is
  representable), embedded as the rational ceiling.
* `as usize` truncates toward zero and saturates at `usize::MAX`. -/

/-- `usize::MAX` (64-bit). -/
def USIZE_MAX : Nat := 18446744073709551615

/-- `n as f32` for `n : u64`/`usize`: round to the nearest representable
`binary32` value, ties to even; the result is integer-valued, returned as a
`Nat`.  Integers up to `2 ^ 24` are exactly representable; above that the
unit in the last place is `2 ^ (e - 23)` where `e` is the floor base-2
logarithm. -/
def f32ofNat (n : Nat) : Nat :=
  if n ≤ 16777216 then n
  else
    let e := log2floor n
    let ulp := 2 ^ (e - 23)
    let q := n / ulp
    let r := n % ulp
    if 2 * r < ulp then q * ulp
    else if ulp < 2 * r then (q + 1) * ulp
    else if q % 2 = 0 then q * ulp else (q + 1) * ulp

/-- `f32` division of two integer-valued operands, as the exact rational
quotient (see the section comment: exact at every reachable input because the
divisor is always 1). -/
def f32div (a b : Nat) : ℚ := (a : ℚ) / (b : ℚ)

/-- `f32::ceil`, which is exact on every representable value. -/
def f32ceil (q : ℚ) : Int := ⌈q⌉

/-- `f32 as usize`: truncate toward zero, clamp to `[0, usize::MAX]`. -/
def f32toUsize (i : Int) : Nat := min i.toNat USIZE_MAX

/-- `partition_count`: the number of partition proofs required to prove a
sector set of length `num_sectors` — computed in the source as
`(num_sectors as f32 / partition_sectors as f32).ceil() as usize`. -/
def partition_count (sector_nodes num_sectors : Nat) : Nat :=
  let partition_sectors := sectors_challenged_per_partition sector_nodes
  f32toUsize (f32ceil (f32div (f32ofNat num_sectors) (f32ofNat partition_sectors)))

/-- The loop body of `generate_challenges`: `count` remaining challenges, the
running `challenge_index`; each iteration clones the seeded hasher, absorbs the
8 little-endian bytes of the counter, finalizes, reads the first 8 digest bytes
as a little-endian `u64` and reduces it modulo the sector's leaf count. -/
def generateChallengesLoop (sector_nodes : Nat) (seeded : List Nat) : Nat → Nat → List Nat
  | 0, _ => []
  | count + 1, challenge_index =>
    fromLeBytes (List.take 8 (sha256 (seeded ++ toLeBytes 8 challenge_index))) % sector_nodes ::
      generateChallengesLoop sector_nodes seeded count (challenge_index + 1)

/-- `generate_challenges`: seed SHA-256 with `randomness.to_repr() ||
sector_id.to_le_bytes()` (the randomness is embedded by its 32-byte repr), then
derive `SECTOR_CHALLENGES` Merkle challenges starting from the global counter
`(k * partition_sectors + sector_index) * SECTOR_CHALLENGES`.  A pure function
of its inputs. -/
def generate_challenges (sector_nodes : Nat) (randomness : List Nat)
    (k sector_index sector_id : Nat) : List Nat :=
  let seeded := randomness ++ toLeBytes 8 sector_id
  let partition_sectors := sectors_challenged_per_partition sector_nodes
  generateChallengesLoop sector_nodes seeded SECTOR_CHALLENGES
    ((k * partition_sectors + sector_index) * SECTOR_CHALLENGES)

/-- A challenged sector of the vanilla window-PoSt public inputs: its id and
its `comm_r` (an opaque domain element `F`). -/
structure VanillaSector (F : Type) where
  id : Nat
  comm_r : F

/-- `vanilla::PublicInputs`: the prover-wide randomness (by its 32-byte repr),
the partition index `k` and the full sector set. -/
structure VanillaPublicInputs (F : Type) where
  randomness : List Nat
  k : Option Nat
  sectors : List (VanillaSector F)

/-- `halo2::window::PublicInputs`: each challenged sector's `comm_r` and
Merkle challenges for one partition. -/
structure PostPublicInputs (F : Type) where
  comms_r : List (Option F)
  challenges : List (List (Option Nat))

/-- Push a copy of the last element (`last().unwrap()` followed by `push`);
`none` models the panic on an empty vector. -/
def pushLast {A : Type} (l : List A) : Option (List A) :=
  l.getLast?.map (fun x => l ++ [x])

/-- `for _ in 0..n { v.push(*v.last().unwrap()) }`. -/
def padLast {A : Type} : Nat → List A → Option (List A)
  | 0, l => some l
  | n + 1, l => (pushLast l).bind (padLast n)

/-- `impl From<vanilla::PublicInputs> for PublicInputs` (window.rs lines
107-176): compute the partition count from the sector-set length, check the
partition index (`assert!` failures and the `unwrap_or_else` panic are embedded
as `none`), take the `k`-th chunk of `sectors_challenged_per_partition`
sectors, derive each sector's challenges, then append `sector_pad_len =
total % sectors_challenged_per_partition` copies of the last entry. -/
def publicInputsFrom {F : Type} (sector_nodes : Nat) (v : VanillaPublicInputs F) :
    Option (PostPublicInputs F) :=
  let total_prover_sectors := v.sectors.length
  let scpp := sectors_challenged_per_partition sector_nodes
  let sector_pad_len := total_prover_sectors % scpp
  let pcount := total_prover_sectors / scpp + (if sector_pad_len ≠ 0 then 1 else 0)
  match v.k with
  | none => none
  | some k =>
    if k < pcount then
      match (chunksOf scpp v.sectors)[k]? with
      | none => none
      | some partition_sectors =>
        let comms_r := partition_sectors.map (fun s => (some s.comm_r : Option F))
        let challenges := partition_sectors.enum.map
          (fun si => (generate_challenges sector_nodes v.randomness k si.1 si.2.id).map some)
        match padLast sector_pad_len comms_r, padLast sector_pad_len challenges with
        | some cr, some ch => some ⟨cr, ch⟩
        | _, _ => none
    else none

/-! ## `storage-proofs-porep/src/encode.rs` -/

/-- The modulus of `blstrs::Scalar` (the BLS12-381 scalar field `Fr`). -/
def rBLS : Nat := 52435875175126190479447740508185965837690552500527637822603658699938581184513

/-- The field the `Domain` elements convert into (`blstrs::Scalar`). -/
abbrev Fr : Type := ZMod rBLS

/-- `encode(key, value)`: convert both domain elements to field elements and
add (`encode_fr` is `*key += value`). -/
def encode (key value : Fr) : Fr := key + value

/-- `decode(key, value)`: convert both to field elements and subtract the key
(`decode_fr` is `*key = value - *key`). -/
def decode (key value : Fr) : Fr := value - key

/-- Modelled from the spec: `encode_into` produces the new replica by the
field-element addition keyed by the replication key at each node — nodewise
`encode` of the sector-key nodes with the staged-data nodes, exactly over the
full sector. -/
def encode_into (key data : List Fr) : List Fr := List.zipWith encode key data

/-- Modelled from the spec: `decode_from` reverses `encode_into` given the
original sector key, returning the staged data — nodewise `decode` by the key
at each node. -/
def decode_from (key replica : List Fr) : List Fr := List.zipWith decode key replica

/-- Modelled from the spec: `remove_encoded_data` recovers the original sealed
replica (the sector key) from the new replica and the staged data — nodewise
subtraction of the data at each node. -/
def remove_encoded_data (data replica : List Fr) : List Fr := List.zipWith decode data replica

/-! ## Seal-proof aggregation (modelled from the spec)

The aggregation entry points live in the `filecoin-proofs` API crate, of which
the sample contains only the tests (`aggregate_proofs`,
`test_aggregate_proof_encode_decode` in `tests/api.rs`); the definitions below
are modelled from §4.5 and §8 of the spec. -/

/-- The aggregation-scheme version tag (snarkpack v1 / v2); at least two
mutually incompatible versions exist. -/
inductive AggregateVersion
  | V1
  | V2
deriving DecidableEq

/-- Errors of seal-proof aggregation; aggregation must reject an empty proof
set. -/
inductive AggregationError
  | EmptyProofSet
deriving DecidableEq

/-- Modelled from the spec: an `AggregateProof` is a compact composition over
many seal proofs, tagged with the aggregation-scheme version it was produced
under and bound to the `(comm_r, seed)` pairs of the aggregated seals. -/
structure SealAggregateProof (P : Type) where
  version : AggregateVersion
  proofs : List P
  comm_rs : List Nat
  seeds : List Nat

/-- The padded proof count: the smallest power of two at or above `n` (with
`padLen 0 = 1`), e.g. 257 proofs pad to 512. -/
def padLen (n : Nat) : Nat := if n ≤ 1 then 1 else 2 ^ (log2floor (n - 1) + 1)

/-- Modelled from the spec: `aggregate_seal_commit_proofs(config, comm_rs,
seeds, proofs, version)` rejects an empty proof set and otherwise pads the
proofs to the next power of two (repeating the last proof) and tags the result
with the requested aggregation-scheme version. -/
def aggregate_seal_commit_proofs {P : Type} (comm_rs seeds : List Nat) (proofs : List P)
    (v : AggregateVersion) : Except AggregationError (SealAggregateProof P) :=
  match proofs with
  | [] => Except.error AggregationError.EmptyProofSet
  | p :: ps =>
    Except.ok
      { version := v
        proofs := (p :: ps) ++
          List.replicate (padLen (p :: ps).length - (p :: ps).length) ((p :: ps).getLastD p)
        comm_rs := comm_rs
        seeds := seeds }

/-- Modelled from the spec: `verify_aggregate_seal_commit_proofs` succeeds only
under the exact aggregation-scheme version the proof was produced with and with
the matching `(comm_r, seed)` bindings; with any other version it fails
deterministically (an ordinary `false`, never a panic). -/
def verify_aggregate_seal_commit_proofs {P : Type} (proof : SealAggregateProof P)
    (comm_rs seeds : List Nat) (v : AggregateVersion) : Bool :=
  decide (proof.version = v) && decide (proof.comm_rs = comm_rs) && decide (proof.seeds = seeds)

/-! ## PreCommit-1 resumability (modelled from the spec) -/

/-- Modelled from the spec: PreCommit-1 writes `num_layers` layer files into
the cache directory; each layer's content is a deterministic function of the
ticket, sector id and config, abstracted as `derive`.  When invoked against a
cache that already holds a subset of the expected layer files, only the
missing layers are regenerated and present layers are returned untouched. -/
def seal_pre_commit_phase1_layers {L : Type} (derive : Nat → L) (num_layers : Nat)
    (cache : Nat → Option L) : List L :=
  (List.range num_layers).map (fun i => (cache i).getD (derive i))

/-- A cache directory with no layer files (a fresh PreCommit-1 run). -/
def emptyCache {L : Type} : Nat → Option L := fun _ => none

/-- The cache directory left behind by a completed PreCommit-1 run with
`num_layers` layers. -/
def cacheOfRun {L : Type} (derive : Nat → L) (num_layers : Nat) : Nat → Option L :=
  fun i => if i < num_layers then some (derive i) else none

/-- Delete one layer file from a cache directory. -/
def deleteLayer {L : Type} (cache : Nat → Option L) (d : Nat) : Nat → Option L :=
  fun i => if i = d then none else cache i

/-! ## Window-PoSt fault reporting (modelled from the spec) -/

/-- A sector's replica as seen by batch window-PoSt generation: its id and
whether its replica file is readable and structurally valid. -/
structure ReplicaInfo where
  sector_id : Nat
  readable : Bool
deriving DecidableEq

/-- The typed error kinds of §7 that window-PoSt generation can surface;
`FaultySectors` carries the ids of every sector that could not produce a proof
and is distinguishable from all other kinds by constructor, not by message
text. -/
inductive PoStError
  | FaultySectors (ids : List Nat)
  | IoError
  | InvalidCache
deriving DecidableEq

/-- Modelled from the spec: batch window-PoSt generation over `replicas` —
when a replica is unreadable or structurally invalid the batch is not aborted
silently; the operation returns the typed `FaultySectors` fault signal
enumerating every sector that failed (and only those), and succeeds when no
sector is faulty. -/
def generate_window_post_batch (replicas : List ReplicaInfo) : Except PoStError (List Nat) :=
  let faulty := (replicas.filter (fun r => !r.readable)).map ReplicaInfo.sector_id
  if faulty = [] then Except.ok (replicas.map ReplicaInfo.sector_id)
  else Except.error (PoStError.FaultySectors faulty)

/-! ## The two window-PoSt proving paths (modelled from the spec)

Both paths are compositions of the same external primitives: per-sector
challenge derivation (`chal`), per-sector vanilla proving (`vanilla`) and
per-partition SNARK proving (`prove_partition`); all are read-only — the model
passes no mutable state, which is exactly why the explicit path works on
read-only replica and cache files. -/

/-- Modelled from the spec: `generate_fallback_sector_challenges` — derive
every sector's challenge set up front. -/
def generate_fallback_sector_challenges {C : Type} (chal : Nat → C) (sectors : List Nat) :
    List (Nat × C) :=
  sectors.map (fun s => (s, chal s))

/-- Modelled from the spec: `generate_single_vanilla_proof` for one sector and
its challenge set. -/
def generate_single_vanilla_proof {C V : Type} (vanilla : Nat → C → V) (sc : Nat × C) : V :=
  vanilla sc.1 sc.2

/-- Modelled from the spec: `merge_window_post_partition_proofs` — concatenate
the partition proofs, received in increasing partition-index order. -/
def merge_window_post_partition_proofs {P : Type} (proofs : List P) : List P := proofs

/-- Modelled from the spec: the one-call path `generate_window_post` —
internally split the sector set into partitions of `sector_count` sectors and,
for each partition, derive challenges, build vanilla proofs and prove, in one
step. -/
def generate_window_post_one_call {C V P : Type} (chal : Nat → C) (vanilla : Nat → C → V)
    (prove_partition : List V → P) (sector_count : Nat) (sectors : List Nat) : List P :=
  (chunksOf sector_count sectors).map
    (fun chunk => prove_partition (chunk.map (fun s => vanilla s (chal s))))

/-- Modelled from the spec: the explicit path —
`generate_fallback_sector_challenges`, then `generate_single_vanilla_proof` per
sector, then `generate_single_window_post_with_vanilla` per partition, then
`merge_window_post_partition_proofs` in increasing partition-index order. -/
def generate_window_post_explicit {C V P : Type} (chal : Nat → C) (vanilla : Nat → C → V)
    (prove_partition : List V → P) (sector_count : Nat) (sectors : List Nat) : List P :=
  let challenges := generate_fallback_sector_challenges chal sectors
  let vanilla_proofs := challenges.map (generate_single_vanilla_proof vanilla)
  merge_window_post_partition_proofs
    ((chunksOf sector_count vanilla_proofs).map prove_partition)

/-! ## Native aggregate-proof serialization (modelled from the spec) -/

/-- Modelled from the spec: an aggregate proof for serialization purposes — a
sequence of fixed-width (48-byte, compressed-group-element-sized) components.
The native compact binary encoding is a 4-byte little-endian count followed by
the raw 48-byte components; the generic structure-serialization (bincode)
encoding spends an 8-byte count and an extra 8-byte length prefix on every
component. -/
structure NativeAggProof where
  elems : List Nat
deriving DecidableEq

/-- Parse `count` 48-byte components, requiring the input to be consumed
exactly. -/
def readElems : Nat → List Nat → Option (List Nat)
  | 0, [] => some []
  | 0, _ :: _ => none
  | count + 1, bs =>
    if bs.length < 48 then none
    else (readElems count (bs.drop 48)).map (fun rest => fromLeBytes (bs.take 48) :: rest)

/-- Modelled from the spec: the native compact binary encoding
(`AggregateProof::write`) — 4-byte little-endian component count, then each
component as 48 raw bytes. -/
def native_write (p : NativeAggProof) : List Nat :=
  toLeBytes 4 p.elems.length ++ (p.elems.map (toLeBytes 48)).flatten

/-- Modelled from the spec: the native decoder (`AggregateProof::read`) —
reject inputs shorter than the count header or containing non-byte values,
read the count, then parse exactly that many 48-byte components. -/
def native_read (bs : List Nat) : Option NativeAggProof :=
  if bs.length < 4 ∨ ¬ bs.all (fun b => b < 256) then none
  else (readElems (fromLeBytes (bs.take 4)) (bs.drop 4)).map (fun es => ⟨es⟩)

/-- Modelled from the spec: the generic structure-serialization (bincode)
encoding of the same proof — an 8-byte sequence-length header and an 8-byte
length prefix before each 48-byte component. -/
def bincode_write (p : NativeAggProof) : List Nat :=
  toLeBytes 8 p.elems.length ++ (p.elems.map (fun e => toLeBytes 8 48 ++ toLeBytes 48 e)).flatten

/-! ## Helper lemmas -/

/-- With `GROTH16_PARTITIONING = false`, every sector size challenges exactly
one sector per partition. -/
theorem scpp_eq_one (sector_nodes : Nat) : sectors_challenged_per_partition sector_nodes = 1 :=
  rfl

/-- The challenge loop returns one challenge per remaining count. -/
theorem generateChallengesLoop_length (sn : Nat) (seeded : List Nat) (count idx : Nat) :
    (generateChallengesLoop sn seeded count idx).length = count := by
  induction count generalizing idx with
  | zero => rfl
  | succ n ih => simp [generateChallengesLoop, ih]

/-- Closed form of the challenge loop: the `i`-th output hashes the seeded
bytes followed by the little-endian counter `idx + i`. -/
theorem generateChallengesLoop_getElem (sn : Nat) (seeded : List Nat) (count i idx : Nat)
    (hi : i < count) :
    (generateChallengesLoop sn seeded count idx)[i]? =
      some (fromLeBytes (List.take 8 (sha256 (seeded ++ toLeBytes 8 (idx + i)))) % sn) := by
  induction count generalizing idx i with
  | zero => omega
  | succ n ih =>
    cases i with
    | zero => simp [generateChallengesLoop]
    | succ j =>
      have hj : j < n := by omega
      simp only [generateChallengesLoop, List.getElem?_cons_succ]
      rw [show idx + (j + 1) = (idx + 1) + j by omega]
      exact ih j (idx + 1) hj

/-- Every output of the challenge loop is reduced modulo the leaf count. -/
theorem generateChallengesLoop_mem_lt (sn : Nat) (seeded : List Nat) (h : 0 < sn)
    (count idx : Nat) : ∀ c ∈ generateChallengesLoop sn seeded count idx, c < sn := by
  induction count generalizing idx with
  | zero => intro c hc; simp [generateChallengesLoop] at hc
  | succ n ih =>
    intro c hc
    simp only [generateChallengesLoop, List.mem_cons] at hc
    rcases hc with h1 | h2
    · subst h1; exact Nat.mod_lt _ h
    · exact ih (idx + 1) c h2

/-- Claim C1: for every randomness repr, partition index `k`, sector index in
the partition, sector id, and challenge index `i < SECTOR_CHALLENGES`, the
`i`-th derived challenge is SHA-256 of `randomness || sector_id.to_le_bytes()
|| counter.to_le_bytes()` — where the counter is
`(k * sectors_challenged_per_partition + sector_index) * SECTOR_CHALLENGES + i`
— with the first 8 digest bytes read as a little-endian `u64` and reduced
modulo the sector's leaf count; the embedding is a pure function of these
inputs. -/
theorem generate_challenges_spec (sector_nodes : Nat) (randomness : List Nat)
    (k sector_index sector_id i : Nat) (hi : i < SECTOR_CHALLENGES) :
    (generate_challenges sector_nodes randomness k sector_index sector_id)[i]? =
      some (fromLeBytes (List.take 8 (sha256 (randomness ++ toLeBytes 8 sector_id ++
          toLeBytes 8 ((k * sectors_challenged_per_partition sector_nodes + sector_index) *
            SECTOR_CHALLENGES + i)))) % sector_nodes) := by
  simp only [generate_challenges]
  exact generateChallengesLoop_getElem sector_nodes (randomness ++ toLeBytes 8 sector_id)
    SECTOR_CHALLENGES i
    ((k * sectors_challenged_per_partition sector_nodes + sector_index) * SECTOR_CHALLENGES) hi

/-- Claim C1 witness: the closed form, instantiated at the 2 KiB sector size
with an all-zero randomness repr and challenge index 0. -/
theorem generate_challenges_spec_witness :
    0 < SECTOR_CHALLENGES ∧
    (generate_challenges SECTOR_NODES_2_KIB (List.replicate 32 0) 0 0 0)[0]? =
      some (fromLeBytes (List.take 8 (sha256 (List.replicate 32 0 ++ toLeBytes 8 0 ++
          toLeBytes 8 ((0 * sectors_challenged_per_partition SECTOR_NODES_2_KIB + 0) *
            SECTOR_CHALLENGES + 0)))) % SECTOR_NODES_2_KIB) :=
  ⟨by decide, generate_challenges_spec SECTOR_NODES_2_KIB (List.replicate 32 0) 0 0 0 0 (by decide)⟩

/-- Claim C10: for every randomness, partition index, sector index and sector
id, challenge derivation returns exactly `SECTOR_CHALLENGES` challenges and
each of them is strictly below the sector's (positive) leaf count, i.e. a
valid Merkle leaf index. -/
theorem generate_challenges_in_bounds (sector_nodes : Nat) (randomness : List Nat)
    (k sector_index sector_id : Nat) (h : 0 < sector_nodes) :
    (generate_challenges sector_nodes randomness k sector_index sector_id).length =
      SECTOR_CHALLENGES ∧
    ∀ c ∈ generate_challenges sector_nodes randomness k sector_index sector_id,
      c < sector_nodes := by
  constructor
  · simp only [generate_challenges]
    exact generateChallengesLoop_length _ _ _ _
  · simp only [generate_challenges]
    exact generateChallengesLoop_mem_lt _ _ h _ _

/-- Claim C10 witness: instantiated at the 2 KiB sector size. -/
theorem generate_challenges_in_bounds_witness :
    0 < SECTOR_NODES_2_KIB ∧
    ((generate_challenges SECTOR_NODES_2_KIB (List.replicate 32 0) 0 0 0).length =
        SECTOR_CHALLENGES ∧
      ∀ c ∈ generate_challenges SECTOR_NODES_2_KIB (List.replicate 32 0) 0 0 0,
        c < SECTOR_NODES_2_KIB) :=
  ⟨by decide,
    generate_challenges_in_bounds SECTOR_NODES_2_KIB (List.replicate 32 0) 0 0 0 (by decide)⟩

/-- Claim C2 counterexample: the claim fails on the code at two concrete
inputs.  First, `sectors_challenged_per_partition` is 1 for every sector size,
so a sector set of size `2 * sectors_challenged_per_partition - 1 = 1` yields
1 partition, not the claimed 2.  Second, the `f32` arithmetic inside
`partition_count` is not exact for arbitrary machine integers: at
`num_sectors = 2 ^ 24 + 1 = 16777217` the `as f32` conversion rounds (ties to
even) down to `2 ^ 24`, so the result is `16777216` while the mathematical
ceiling `⌈16777217 / 1⌉` is `16777217`. -/
theorem partition_count_counterexample :
    partition_count SECTOR_NODES_2_KIB
        (2 * sectors_challenged_per_partition SECTOR_NODES_2_KIB - 1) = 1 ∧
    partition_count SECTOR_NODES_2_KIB 16777217 = 16777216 := by
  constructor
  · simp only [partition_count, f32div, f32ceil, f32toUsize,
      show sectors_challenged_per_partition SECTOR_NODES_2_KIB = 1 from rfl,
      show f32ofNat 1 = 1 from rfl]
    push_cast
    rw [div_one]
    norm_num [USIZE_MAX]
  · have h2 : f32ofNat 16777217 = 16777216 := by decide
    simp only [partition_count, f32div, f32ceil, f32toUsize, h2,
      show f32ofNat (sectors_challenged_per_partition SECTOR_NODES_2_KIB) = 1 from rfl]
    push_cast
    rw [div_one]
    norm_num [USIZE_MAX]
    decide

/-- Claim C2 (amended): for every number of sectors up to `2 ^ 24` (the range
in which the `f32` arithmetic used by the code is exact), `partition_count`
returns exactly the mathematical ceiling of `num_sectors` divided by
`sectors_challenged_per_partition(sector_size)`; since the latter is 1, a
sector set of size `2 * sectors_challenged_per_partition - 1 = 1` yields
exactly 1 partition. -/
theorem partition_count_ceil_below_f32_precision (sector_nodes n : Nat) (hn : n ≤ 16777216) :
    partition_count sector_nodes n =
      (n + sectors_challenged_per_partition sector_nodes - 1) /
        sectors_challenged_per_partition sector_nodes := by
  have hs : sectors_challenged_per_partition sector_nodes = 1 := rfl
  rw [hs]
  simp only [partition_count, hs, f32div, f32ceil, f32toUsize]
  rw [show f32ofNat n = n from if_pos hn, show f32ofNat 1 = 1 from rfl]
  push_cast
  rw [div_one, Int.ceil_natCast]
  simp [USIZE_MAX]
  omega

/-- Claim C2 witness: the amended ceiling formula at 7 sectors of the 2 KiB
sector size. -/
theorem partition_count_ceil_below_f32_precision_witness :
    7 ≤ 16777216 ∧
    partition_count SECTOR_NODES_2_KIB 7 =
      (7 + sectors_challenged_per_partition SECTOR_NODES_2_KIB - 1) /
        sectors_challenged_per_partition SECTOR_NODES_2_KIB :=
  ⟨by decide, partition_count_ceil_below_f32_precision SECTOR_NODES_2_KIB 7 (by decide)⟩

/-- Chunks of size 1 are the singleton lists, element by element (worker
lemma, fuel at least the list length). -/
theorem chunksOfAux_one {A : Type} (fuel : Nat) (l : List A) (hl : l.length ≤ fuel) :
    chunksOfAux fuel 1 l = l.map (fun a => [a]) := by
  induction fuel generalizing l with
  | zero =>
    have : l = [] := List.length_eq_zero.mp (Nat.le_zero.mp hl)
    subst this; rfl
  | succ f ih =>
    cases l with
    | nil => rfl
    | cons a as =>
      simp only [chunksOfAux, List.take_succ_cons, List.take_zero, List.drop_succ_cons,
        List.drop_zero, List.map_cons]
      exact congrArg _ (ih as (by simpa using Nat.succ_le_succ_iff.mp (by simpa using hl)))

/-- Chunks of size 1 are the singleton lists. -/
theorem chunksOf_one {A : Type} (l : List A) : chunksOf 1 l = l.map (fun a => [a]) :=
  chunksOfAux_one l.length l le_rfl

/-- Claim C3: whenever `PublicInputs::from` succeeds (its `assert!`s and
panics are embedded as `none`), the partition public inputs hold exactly
`sectors_challenged_per_partition` comm_r entries and exactly that many
challenge sets — no partition, last or not, ever carries more slots.  (With
`sectors_challenged_per_partition = 1` for every sector size, the final slice
is never shorter than a partition, so the repeat-the-last-sector padding of
the claim is vacuously satisfied and the padding loop `sector_pad_len =
total % 1 = 0` never fires.) -/
theorem post_public_inputs_slot_count {F : Type} (sector_nodes : Nat)
    (v : VanillaPublicInputs F) (pub : PostPublicInputs F)
    (h : publicInputsFrom sector_nodes v = some pub) :
    pub.comms_r.length = sectors_challenged_per_partition sector_nodes ∧
    pub.challenges.length = sectors_challenged_per_partition sector_nodes := by
  obtain ⟨rand, ko, sectors⟩ := v
  rw [scpp_eq_one]
  simp only [publicInputsFrom, scpp_eq_one, Nat.mod_one, Nat.div_one, chunksOf_one,
    List.getElem?_map, ne_eq, not_true_eq_false, if_false] at h
  cases ko with
  | none => simp at h
  | some k =>
    simp only at h
    split at h
    · rcases hs : sectors[k]? with _ | s
      · rw [hs] at h; simp at h
      · rw [hs] at h
        simp only [Option.map_some', padLast] at h
        rw [Option.some.injEq] at h
        subst h
        constructor <;> simp
    · simp at h

/-- Claim C3 witness: a one-sector set at the 2 KiB sector size, partition 0. -/
theorem post_public_inputs_slot_count_witness :
    (publicInputsFrom SECTOR_NODES_2_KIB
        (⟨List.replicate 32 0, some 0, [⟨5, 77⟩]⟩ : VanillaPublicInputs Nat) =
      some ⟨[some 77],
        [List.map some (generate_challenges SECTOR_NODES_2_KIB (List.replicate 32 0) 0 0 5)]⟩) ∧
    ((⟨[some 77],
        [List.map some (generate_challenges SECTOR_NODES_2_KIB (List.replicate 32 0) 0 0 5)]⟩ :
          PostPublicInputs Nat).comms_r.length =
        sectors_challenged_per_partition SECTOR_NODES_2_KIB ∧
      (⟨[some 77],
        [List.map some (generate_challenges SECTOR_NODES_2_KIB (List.replicate 32 0) 0 0 5)]⟩ :
          PostPublicInputs Nat).challenges.length =
        sectors_challenged_per_partition SECTOR_NODES_2_KIB) :=
  ⟨rfl,
    post_public_inputs_slot_count SECTOR_NODES_2_KIB
      (⟨List.replicate 32 0, some 0, [⟨5, 77⟩]⟩ : VanillaPublicInputs Nat)
      (⟨[some 77],
        [List.map some (generate_challenges SECTOR_NODES_2_KIB (List.replicate 32 0) 0 0 5)]⟩ :
          PostPublicInputs Nat)
      rfl⟩

/-- Nodewise decoding with the sector key inverts nodewise encoding over the
full sector. -/
theorem decode_from_encode_into (key data : List Fr) (h : key.length = data.length) :
    decode_from key (encode_into key data) = data := by
  induction key generalizing data with
  | nil => cases data with
    | nil => rfl
    | cons b bs => simp at h
  | cons a as ih =>
    cases data with
    | nil => simp at h
    | cons b bs =>
      have h' : as.length = bs.length := by simpa using h
      simp only [encode_into, decode_from, List.zipWith_cons_cons]
      rw [show decode a (encode a b) = b by simp [encode, decode]]
      exact congrArg (List.cons b) (ih bs h')

/-- Nodewise subtraction of the staged data from the new replica recovers the
sector key over the full sector. -/
theorem remove_encoded_data_encode_into (key data : List Fr) (h : key.length = data.length) :
    remove_encoded_data data (encode_into key data) = key := by
  induction key generalizing data with
  | nil => cases data with
    | nil => rfl
    | cons b bs => simp at h
  | cons a as ih =>
    cases data with
    | nil => simp at h
    | cons b bs =>
      have h' : as.length = bs.length := by simpa using h
      simp only [encode_into, remove_encoded_data, List.zipWith_cons_cons]
      rw [show decode b (encode a b) = a by simp [encode, decode]]
      exact congrArg (List.cons a) (ih bs h')

/-- Claim C4: `decode` with the same key inverts `encode` (`encode` adds the
key in the field, `decode` subtracts it); consequently, over a full sector of
equal node count, `decode_from` applied to the output of `encode_into` returns
exactly the staged data, and `remove_encoded_data` returns exactly the
original sealed replica (the sector key). -/
theorem encode_decode_roundtrip :
    (∀ key value : Fr, decode key (encode key value) = value) ∧
    ∀ key data : List Fr, key.length = data.length →
      decode_from key (encode_into key data) = data ∧
      remove_encoded_data data (encode_into key data) = key :=
  ⟨fun key value => by simp [encode, decode],
   fun key data h =>
     ⟨decode_from_encode_into key data h, remove_encoded_data_encode_into key data h⟩⟩

/-- Claim C4 witness: a concrete two-node sector. -/
theorem encode_decode_roundtrip_witness :
    decode (3 : Fr) (encode 3 5) = 5 ∧
    (([3, 4] : List Fr).length = ([5, 6] : List Fr).length ∧
      (decode_from [3, 4] (encode_into [3, 4] [5, 6]) = [5, 6] ∧
        remove_encoded_data [5, 6] (encode_into [3, 4] [5, 6]) = [3, 4])) :=
  ⟨encode_decode_roundtrip.1 3 5, rfl, encode_decode_roundtrip.2 [3, 4] [5, 6] rfl⟩

/-- Claim C6: after a full PreCommit-1 run produced its two layer files,
deleting exactly one of them (either layer) and re-running PreCommit-1 with
identical inputs reproduces layer files identical to the original
uninterrupted run, and the surviving layer file already equals the
corresponding original layer — the re-run only reads it back (`Option.getD` on
a present entry), regenerating nothing but the missing layer. -/
theorem precommit1_resume_identical {L : Type} (derive : Nat → L) (d : Nat) (hd : d < 2) :
    seal_pre_commit_phase1_layers derive 2 (deleteLayer (cacheOfRun derive 2) d) =
      seal_pre_commit_phase1_layers derive 2 emptyCache ∧
    ∀ i, i < 2 → i ≠ d →
      deleteLayer (cacheOfRun derive 2) d i =
        (seal_pre_commit_phase1_layers derive 2 emptyCache)[i]? := by
  interval_cases d <;> refine ⟨?_, ?_⟩
  · simp [seal_pre_commit_phase1_layers, deleteLayer, cacheOfRun, emptyCache, List.range_succ]
  · intro i hi hne
    interval_cases i
    · omega
    · simp [seal_pre_commit_phase1_layers, deleteLayer, cacheOfRun, emptyCache, List.range_succ]
  · simp [seal_pre_commit_phase1_layers, deleteLayer, cacheOfRun, emptyCache, List.range_succ]
  · intro i hi hne
    interval_cases i
    · simp [seal_pre_commit_phase1_layers, deleteLayer, cacheOfRun, emptyCache, List.range_succ]
    · omega

/-- Claim C6 witness: deleting layer 0 with the identity derivation. -/
theorem precommit1_resume_identical_witness :
    0 < 2 ∧
    (seal_pre_commit_phase1_layers (fun i => i) 2 (deleteLayer (cacheOfRun (fun i => i) 2) 0) =
        seal_pre_commit_phase1_layers (fun i => i) 2 emptyCache ∧
      ∀ i, i < 2 → i ≠ 0 →
        deleteLayer (cacheOfRun (fun i => i) 2) 0 i =
          (seal_pre_commit_phase1_layers (fun i => i) 2 emptyCache)[i]?) :=
  ⟨by decide, precommit1_resume_identical (fun i => i) 0 (by decide)⟩

/-- Claim C7: when at least one replica of the batch is unreadable or
structurally invalid, window-PoSt generation returns the typed
`FaultySectors` error whose id list is exactly the faulty sectors — an id is
listed iff some unreadable replica carries it, so no valid sector is
misattributed and no faulty sector is omitted — and `FaultySectors` is
distinguishable from every other error kind by constructor, not by message
text; the batch is never aborted silently (the result is always `ok` or this
typed error). -/
theorem window_post_faulty_sectors (replicas : List ReplicaInfo)
    (hf : replicas.filter (fun r => !r.readable) ≠ []) :
    generate_window_post_batch replicas =
      Except.error (PoStError.FaultySectors
        ((replicas.filter (fun r => !r.readable)).map ReplicaInfo.sector_id)) ∧
    (∀ sid, sid ∈ (replicas.filter (fun r => !r.readable)).map ReplicaInfo.sector_id ↔
      ∃ r ∈ replicas, r.readable = false ∧ r.sector_id = sid) ∧
    (∀ ids, PoStError.FaultySectors ids ≠ PoStError.IoError ∧
      PoStError.FaultySectors ids ≠ PoStError.InvalidCache) := by
  refine ⟨?_, ?_, ?_⟩
  rotate_right
  · exact fun ids => ⟨fun h => PoStError.noConfusion h, fun h => PoStError.noConfusion h⟩
  · have hne : (replicas.filter (fun r => !r.readable)).map ReplicaInfo.sector_id ≠ [] := by
      simpa using hf
    simp [generate_window_post_batch, hne]
  · intro sid
    simp only [List.mem_map, List.mem_filter, Bool.not_eq_true']
    constructor
    · rintro ⟨r, ⟨hr, hread⟩, hid⟩
      exact ⟨r, hr, hread, hid⟩
    · rintro ⟨r, hr, hread, hid⟩
      exact ⟨r, ⟨hr, hread⟩, hid⟩

/-- Claim C7 witness: a two-sector batch whose second replica is unreadable. -/
theorem window_post_faulty_sectors_witness :
    ([⟨1, true⟩, ⟨2, false⟩] : List ReplicaInfo).filter (fun r => !r.readable) ≠ [] ∧
    (generate_window_post_batch [⟨1, true⟩, ⟨2, false⟩] =
        Except.error (PoStError.FaultySectors
          ((([⟨1, true⟩, ⟨2, false⟩] : List ReplicaInfo).filter
            (fun r => !r.readable)).map ReplicaInfo.sector_id)) ∧
      (∀ sid, sid ∈ (([⟨1, true⟩, ⟨2, false⟩] : List ReplicaInfo).filter
            (fun r => !r.readable)).map ReplicaInfo.sector_id ↔
        ∃ r ∈ ([⟨1, true⟩, ⟨2, false⟩] : List ReplicaInfo),
          r.readable = false ∧ r.sector_id = sid) ∧
      (∀ ids, PoStError.FaultySectors ids ≠ PoStError.IoError ∧
        PoStError.FaultySectors ids ≠ PoStError.InvalidCache)) :=
  ⟨by decide, window_post_faulty_sectors [⟨1, true⟩, ⟨2, false⟩] (by decide)⟩

/-- The fuel-driven floor-log2 worker is a lower bound witness:
`m < 2 ^ (log2floorAux fuel m + 1)` whenever the fuel covers `m`. -/
theorem log2floorAux_lt (fuel : Nat) : ∀ m, m ≤ fuel → m < 2 ^ (log2floorAux fuel m + 1) := by
  induction fuel with
  | zero => intro m hm; interval_cases m; simp [log2floorAux]
  | succ f ih =>
    intro m hm
    by_cases h2 : m < 2
    · simp only [log2floorAux, if_pos h2]; omega
    · have hm2 : m / 2 ≤ f := by omega
      have hrec := ih (m / 2) hm2
      simp only [log2floorAux, if_neg h2]
      rw [pow_succ]
      omega

/-- The padded proof count is at least the proof count. -/
theorem le_padLen (n : Nat) : n ≤ padLen n := by
  unfold padLen
  by_cases h1 : n ≤ 1
  · simp [h1]
  · rw [if_neg h1]
    have := log2floorAux_lt (n - 1) (n - 1) le_rfl
    unfold log2floor at *
    omega

/-- The padded proof count is a power of two. -/
theorem padLen_pow (n : Nat) : ∃ e, padLen n = 2 ^ e := by
  unfold padLen
  by_cases h1 : n ≤ 1
  · exact ⟨0, by simp [h1]⟩
  · exact ⟨log2floor (n - 1) + 1, by simp [h1]⟩

/-- Claim C5: for every nonempty proof set (any count, power of two or not)
and every aggregation-scheme version, aggregation succeeds, padding the proofs
to a power of two; verification under the producing version returns `true`
and under the other version returns `false` — an ordinary boolean, never a
panic — and the empty proof set is rejected with the typed
`EmptyProofSet` error. -/
theorem aggregate_version_contract {P : Type} (comm_rs seeds : List Nat) (proofs : List P)
    (v w : AggregateVersion) (hne : proofs ≠ []) (hvw : v ≠ w) :
    (∃ ap, aggregate_seal_commit_proofs comm_rs seeds proofs v = Except.ok ap ∧
       verify_aggregate_seal_commit_proofs ap comm_rs seeds v = true ∧
       verify_aggregate_seal_commit_proofs ap comm_rs seeds w = false ∧
       proofs.length ≤ ap.proofs.length ∧ ∃ e, ap.proofs.length = 2 ^ e) ∧
    aggregate_seal_commit_proofs comm_rs seeds ([] : List P) v =
      Except.error AggregationError.EmptyProofSet := by
  constructor
  · match proofs, hne with
    | p :: ps, _ =>
      refine ⟨_, rfl, ?_, ?_, ?_, ?_⟩
      · simp [verify_aggregate_seal_commit_proofs]
      · simp [verify_aggregate_seal_commit_proofs, hvw]
      · have := le_padLen (p :: ps).length
        simp only [List.length_append, List.length_replicate]
        omega
      · have hle := le_padLen (p :: ps).length
        obtain ⟨e, he⟩ := padLen_pow (p :: ps).length
        refine ⟨e, ?_⟩
        simp only [List.length_append, List.length_replicate]
        omega
  · rfl

/-- Claim C5 witness: three proofs (a non-power-of-two count) aggregated under
V1 and checked against both versions. -/
theorem aggregate_version_contract_witness :
    ([7, 8, 9] : List Nat) ≠ [] ∧ AggregateVersion.V1 ≠ AggregateVersion.V2 ∧
    ((∃ ap, aggregate_seal_commit_proofs [1] [2] ([7, 8, 9] : List Nat)
          AggregateVersion.V1 = Except.ok ap ∧
        verify_aggregate_seal_commit_proofs ap [1] [2] AggregateVersion.V1 = true ∧
        verify_aggregate_seal_commit_proofs ap [1] [2] AggregateVersion.V2 = false ∧
        ([7, 8, 9] : List Nat).length ≤ ap.proofs.length ∧
        ∃ e, ap.proofs.length = 2 ^ e) ∧
      aggregate_seal_commit_proofs [1] [2] ([] : List Nat) AggregateVersion.V1 =
        Except.error AggregationError.EmptyProofSet) :=
  ⟨by decide, by decide,
    aggregate_version_contract [1] [2] [7, 8, 9] AggregateVersion.V1 AggregateVersion.V2
      (by decide) (by decide)⟩

/-- Chunking commutes with mapping (worker lemma). -/
theorem chunksOfAux_map {A B : Type} (f : A → B) :
    ∀ fuel size (l : List A),
      chunksOfAux fuel size (l.map f) = (chunksOfAux fuel size l).map (List.map f) := by
  intro fuel
  induction fuel with
  | zero => intro size l; rfl
  | succ fu ih =>
    intro size l
    cases l with
    | nil => rfl
    | cons a as =>
      simp only [List.map_cons, chunksOfAux]
      rw [← List.map_cons f a as, ← List.map_take, ← List.map_drop, ih]

/-- Chunking commutes with mapping. -/
theorem chunksOf_map {A B : Type} (f : A → B) (size : Nat) (l : List A) :
    chunksOf size (l.map f) = (chunksOf size l).map (List.map f) := by
  unfold chunksOf
  rw [List.length_map]
  exact chunksOfAux_map f l.length size l

/-- Claim C8: for every sector set and every choice of the underlying
challenge/vanilla/partition proving primitives, the one-call window-PoSt path
and the explicit path (challenges, then per-sector vanilla proofs, then
per-partition proofs, merged in increasing partition-index order) produce the
same proof list, hence verify identically against the same public inputs
under any verifier; both paths are pure compositions of read-only primitives,
which is what makes them usable on read-only replica and cache files. -/
theorem window_post_paths_equivalent {C V P : Type} (chal : Nat → C) (vanilla : Nat → C → V)
    (prove_partition : List V → P) (sector_count : Nat) (sectors : List Nat) :
    generate_window_post_explicit chal vanilla prove_partition sector_count sectors =
      generate_window_post_one_call chal vanilla prove_partition sector_count sectors ∧
    ∀ verify : List P → Bool,
      verify (generate_window_post_explicit chal vanilla prove_partition sector_count sectors) =
        verify (generate_window_post_one_call chal vanilla prove_partition sector_count
          sectors) := by
  have key : generate_window_post_explicit chal vanilla prove_partition sector_count sectors =
      generate_window_post_one_call chal vanilla prove_partition sector_count sectors := by
    simp only [generate_window_post_explicit, generate_window_post_one_call,
      generate_fallback_sector_challenges, generate_single_vanilla_proof,
      merge_window_post_partition_proofs, List.map_map]
    rw [chunksOf_map]
    simp only [List.map_map]
    exact List.map_congr_left fun a _ => rfl
  exact ⟨key, fun verify => congrArg verify key⟩

/-- Every byte-list encoding of a `w`-digit number has exactly `w` digits. -/
theorem toLeBytes_length (w n : Nat) : (toLeBytes w n).length = w := by
  induction w generalizing n with
  | zero => rfl
  | succ k ih => simp [toLeBytes, ih]

/-- Little-endian round trip: re-encoding the value of a byte list
reproduces the bytes, provided they are bytes. -/
theorem toLeBytes_fromLeBytes (c : List Nat) (hc : ∀ b ∈ c, b < 256) :
    toLeBytes c.length (fromLeBytes c) = c := by
  induction c with
  | nil => rfl
  | cons b bs ih =>
    have hb : b < 256 := hc b (List.mem_cons_self b bs)
    simp only [List.length_cons, toLeBytes, fromLeBytes]
    have h1 : (b + 256 * fromLeBytes bs) % 256 = b := by omega
    have h2 : (b + 256 * fromLeBytes bs) / 256 = fromLeBytes bs := by omega
    rw [h1, h2, ih (fun x hx => hc x (List.mem_cons_of_mem _ hx))]

/-- A successful component parse consumes the input exactly, and re-encoding
the parsed components reproduces it byte for byte. -/
theorem readElems_spec :
    ∀ count bs es, (∀ b ∈ bs, b < 256) → readElems count bs = some es →
      (es.map (toLeBytes 48)).flatten = bs ∧ es.length = count := by
  intro count
  induction count with
  | zero =>
    intro bs es hb h
    cases bs with
    | nil =>
      simp only [readElems, Option.some.injEq] at h
      subst h
      exact ⟨rfl, rfl⟩
    | cons x xs => simp [readElems] at h
  | succ k ih =>
    intro bs es hb h
    simp only [readElems] at h
    split at h
    · simp at h
    · rename_i hlen
      obtain ⟨rest, hrest, hes⟩ := Option.map_eq_some'.mp h
      subst hes
      have hbdrop : ∀ b ∈ bs.drop 48, b < 256 := fun b hbd => hb b (List.mem_of_mem_drop hbd)
      obtain ⟨hfl, hrl⟩ := ih (bs.drop 48) rest hbdrop hrest
      have htl : (bs.take 48).length = 48 := by
        rw [List.length_take]
        omega
      have hround : toLeBytes 48 (fromLeBytes (bs.take 48)) = bs.take 48 := by
        have := toLeBytes_fromLeBytes (bs.take 48) (fun b hbt => hb b (List.mem_of_mem_take hbt))
        rwa [htl] at this
      constructor
      · simp only [List.map_cons, List.flatten_cons, hround, hfl]
        exact List.take_append_drop 48 bs
      · simp [hrl]

/-- The body of the native encoding spends exactly 48 bytes per component. -/
theorem flatten_map_toLeBytes_length (es : List Nat) :
    ((es.map (toLeBytes 48)).flatten).length = 48 * es.length := by
  induction es with
  | nil => rfl
  | cons e es ih =>
    simp only [List.map_cons, List.flatten_cons, List.length_append, toLeBytes_length, ih,
      List.length_cons]
    ring

/-- The body of the bincode encoding spends exactly 56 bytes per component. -/
theorem flatten_map_bincode_length (es : List Nat) :
    ((es.map (fun e => toLeBytes 8 48 ++ toLeBytes 48 e)).flatten).length = 56 * es.length := by
  induction es with
  | nil => rfl
  | cons e es ih =>
    simp only [List.map_cons, List.flatten_cons, List.length_append, toLeBytes_length, ih,
      List.length_cons]
    ring

/-- Claim C9: the native binary encoding of an aggregate proof round-trips
exactly — deserializing any byte sequence the decoder accepts and
re-serializing it yields a byte-identical sequence — and the native encoding
of every proof is strictly smaller than its generic structure-serialization
(bincode) encoding. -/
theorem native_encoding_roundtrip_and_compact :
    (∀ bs p, native_read bs = some p → native_write p = bs) ∧
    ∀ p : NativeAggProof, (native_write p).length < (bincode_write p).length := by
  constructor
  · intro bs p h
    simp only [native_read] at h
    split at h
    · simp at h
    · rename_i hcond
      rw [not_or, not_lt, not_not] at hcond
      obtain ⟨hlen4, hall⟩ := hcond
      have hb : ∀ b ∈ bs, b < 256 := by
        intro b hbm
        have := List.all_eq_true.mp hall b hbm
        simpa using this
      obtain ⟨es, hre, hpe⟩ := Option.map_eq_some'.mp h
      subst hpe
      have hbdrop : ∀ b ∈ bs.drop 4, b < 256 := fun b hbd => hb b (List.mem_of_mem_drop hbd)
      obtain ⟨hfl, hcount⟩ := readElems_spec _ _ _ hbdrop hre
      have htl : (bs.take 4).length = 4 := by
        rw [List.length_take]
        omega
      have hhead : toLeBytes 4 es.length = bs.take 4 := by
        rw [hcount]
        have := toLeBytes_fromLeBytes (bs.take 4) (fun b hbt => hb b (List.mem_of_mem_take hbt))
        rwa [htl] at this
      simp only [native_write, hhead, hfl]
      exact List.take_append_drop 4 bs
  · intro p
    simp only [native_write, bincode_write, List.length_append, toLeBytes_length,
      flatten_map_toLeBytes_length, flatten_map_bincode_length]
    omega

/-- Claim C9 witness: a one-component proof, decoded from its 52 native bytes
and re-encoded. -/
theorem native_encoding_roundtrip_and_compact_witness :
    (native_read (toLeBytes 4 1 ++ toLeBytes 48 7) = some ⟨[7]⟩) ∧
    (native_write ⟨[7]⟩ = toLeBytes 4 1 ++ toLeBytes 48 7 ∧
      (native_write ⟨[7]⟩).length < (bincode_write ⟨[7]⟩).length) :=
  ⟨by decide,
    native_encoding_roundtrip_and_compact.1 (toLeBytes 4 1 ++ toLeBytes 48 7) ⟨[7]⟩ (by decide),
    native_encoding_roundtrip_and_compact.2 ⟨[7]⟩⟩
